import Mathlib

/-!
Verification of the `keys-lib` key-notation parsing library.

Strings are modelled as `List Char` (the Rust code indexes by character
position; we mirror slices `&input[a..b]` with `strSlice`).  Fallible Rust
functions returning `Result<_, Error>` are modelled with `Except Error _`;
functions that can also `panic!` are modelled with `PResult` (resp.
`Option`, where `none` marks the panic), so that a panicking execution is
distinguishable from both success and a returned `Error`.
-/

set_option maxRecDepth 4000

/-- The symbolic key identifiers (`enum KeyName` in `src/lib.rs`). -/
inductive KeyName where
  | A | B | C | D | E | F | G | H | I | J | K | L | M
  | N | O | P | Q | R | S | T | U | V | W | X | Y | Z
  | Number0 | Number1 | Number2 | Number3 | Number4
  | Number5 | Number6 | Number7 | Number8 | Number9
  | Bang | At | Pound | Dollar | Percent | Carrot | Ampersand | Star
  | ParenthesisLeft | ParenthesisRight | BracketLeft | BracketRight
  | BraceLeft | BraceRight | Backtick | Tilde | Equals | Underscore
  | Plus | ForwardSlash | Backslash | Question | Pipe
  | SingleQuote | DoubleQuote | Comma | Period | Colon | Semicolon
  | Dash | LessThan | GreaterThan
  deriving DecidableEq, Repr

/-- The literal-spelling table generated by `define_key_name!` in
`src/lib.rs`: each row is (spelling, identifier, implicit-shift flag). -/
def keyTable : List (List Char × KeyName × Bool) :=
  [ (['a'], KeyName.A, false), (['A'], KeyName.A, true),
    (['b'], KeyName.B, false), (['B'], KeyName.B, true),
    (['c'], KeyName.C, false), (['C'], KeyName.C, true),
    (['d'], KeyName.D, false), (['D'], KeyName.D, true),
    (['e'], KeyName.E, false), (['E'], KeyName.E, true),
    (['f'], KeyName.F, false), (['F'], KeyName.F, true),
    (['g'], KeyName.G, false), (['G'], KeyName.G, true),
    (['h'], KeyName.H, false), (['H'], KeyName.H, true),
    (['i'], KeyName.I, false), (['I'], KeyName.I, true),
    (['j'], KeyName.J, false), (['J'], KeyName.J, true),
    (['k'], KeyName.K, false), (['K'], KeyName.K, true),
    (['l'], KeyName.L, false), (['L'], KeyName.L, true),
    (['m'], KeyName.M, false), (['M'], KeyName.M, true),
    (['n'], KeyName.N, false), (['N'], KeyName.N, true),
    (['o'], KeyName.O, false), (['O'], KeyName.O, true),
    (['p'], KeyName.P, false), (['P'], KeyName.P, true),
    (['q'], KeyName.Q, false), (['Q'], KeyName.Q, true),
    (['r'], KeyName.R, false), (['R'], KeyName.R, true),
    (['s'], KeyName.S, false), (['S'], KeyName.S, true),
    (['t'], KeyName.T, false), (['T'], KeyName.T, true),
    (['u'], KeyName.U, false), (['U'], KeyName.U, true),
    (['v'], KeyName.V, false), (['V'], KeyName.V, true),
    (['w'], KeyName.W, false), (['W'], KeyName.W, true),
    (['x'], KeyName.X, false), (['X'], KeyName.X, true),
    (['y'], KeyName.Y, false), (['Y'], KeyName.Y, true),
    (['z'], KeyName.Z, false), (['Z'], KeyName.Z, true),
    (['0'], KeyName.Number0, false), (['1'], KeyName.Number1, false),
    (['2'], KeyName.Number2, false), (['3'], KeyName.Number3, false),
    (['4'], KeyName.Number4, false), (['5'], KeyName.Number5, false),
    (['6'], KeyName.Number6, false), (['7'], KeyName.Number7, false),
    (['8'], KeyName.Number8, false), (['9'], KeyName.Number9, false),
    (['!'], KeyName.Bang, false), (['@'], KeyName.At, false),
    (['#'], KeyName.Pound, false), (['$'], KeyName.Dollar, false),
    (['%'], KeyName.Percent, false), (['^'], KeyName.Carrot, false),
    (['&'], KeyName.Ampersand, false), (['*'], KeyName.Star, false),
    (['('], KeyName.ParenthesisLeft, false), ([')'], KeyName.ParenthesisRight, false),
    (['['], KeyName.BracketLeft, false), ([']'], KeyName.BracketRight, false),
    ([Char.ofNat 123], KeyName.BraceLeft, false),
    ([Char.ofNat 125], KeyName.BraceRight, false),
    ([Char.ofNat 96], KeyName.Backtick, false),
    (['~'], KeyName.Tilde, false), (['='], KeyName.Equals, false),
    (['_'], KeyName.Underscore, false), (['+'], KeyName.Plus, false),
    (['/'], KeyName.ForwardSlash, false), (['\\'], KeyName.Backslash, false),
    (['?'], KeyName.Question, false), (['|'], KeyName.Pipe, false),
    ([Char.ofNat 39], KeyName.SingleQuote, false),
    ([Char.ofNat 34], KeyName.DoubleQuote, false),
    ([','], KeyName.Comma, false), (['.'], KeyName.Period, false),
    ([':'], KeyName.Colon, false), ([';'], KeyName.Semicolon, false),
    (['\\', '-'], KeyName.Dash, false),
    (['\\', '<'], KeyName.LessThan, false),
    (['\\', '>'], KeyName.GreaterThan, false) ]

/-- `KeyName::from_str`: lookup of a literal spelling in the key-name
table, yielding the identifier and the implicit-shift flag. -/
def KeyName.from_str (value : List Char) : Option (KeyName × Bool) :=
  (keyTable.find? (fun row => row.1 == value)).map (·.2)

/-- `struct Modifiers`: three independent boolean flags. -/
structure Modifiers where
  shift : Bool
  control : Bool
  alt : Bool
  deriving DecidableEq, Repr

/-- `struct Key`: a key name together with its modifier flags. -/
structure Key where
  modifiers : Modifiers
  name : KeyName
  deriving DecidableEq, Repr

/-- `enum Error`: the closed error taxonomy of the library. -/
inductive Error where
  | NoKeyName
  | InvalidKeyName (s : List Char)
  | InvalidKeyModifier (s : List Char)
  | UnexpectedGroupOpen
  | UnexpectedGroupClose
  | UnexpectedEnd
  | IncompleteGroup (s : List Char)
  deriving DecidableEq, Repr

/-- `Keys(Vec<Key>)`: an ordered sequence of keys. -/
abbrev Keys := List Key

/-- Outcome of a Rust computation that may succeed, return an `Error`,
or `panic!`.  `panicked` is not a value and not an `Error`. -/
inductive PResult (α : Type) where
  | ok (a : α)
  | err (e : Error)
  | panicked
  deriving DecidableEq, Repr

/-- The Rust slice `&input[a..b]` on a character-indexed string. -/
def strSlice (l : List Char) (a b : Nat) : List Char :=
  (l.drop a).take (b - a)

/-- Loop of `split_modifiers` (`src/lib.rs:198-226`): `rem` is the
unread suffix `input[pos..]`, `start` the beginning of the current
sub-token, `is_escaped` the escape flag, `acc` the sub-tokens pushed so
far.  `none` models the `panic!("cannot escape end of group")` branch. -/
def smAux (input : List Char) :
    List Char → Nat → Nat → Bool → List (List Char) →
    Option (List (List Char))
  | [], _pos, start, is_escaped, acc =>
    if start < input.length then
      if is_escaped then none
      else some (acc ++ [strSlice input start input.length])
    else some acc
  | _ch :: rest, pos, start, true, acc =>
    smAux input rest (pos + 1) start false acc
  | ch :: rest, pos, start, false, acc =>
    if ch = '\\' then smAux input rest (pos + 1) start true acc
    else if ch = '-' then
      if start ≠ pos then
        smAux input rest (pos + 1) (pos + 1) false
          (acc ++ [strSlice input start pos])
      else smAux input rest (pos + 1) (pos + 1) false acc
    else smAux input rest (pos + 1) start false acc

/-- `split_modifiers`: split a group interior on unescaped `-`,
dropping empty segments; `none` models the panic on a trailing
unescaped backslash.  (The Rust signature is `Result`, but no `Err` is
ever produced.) -/
def split_modifiers (input : List Char) : Option (List (List Char)) :=
  smAux input input 0 0 false []

/-- Loop of `split_keys` (`src/lib.rs:228-270`): `rem` is the unread
suffix `input[pos..]`, `start` the beginning of the current token,
`is_group` whether a `<...>` group is open, `acc` the tokens pushed so
far. -/
def skAux (input : List Char) :
    List Char → Nat → Nat → Bool → List (List Char) →
    Except Error (List (List Char))
  | [], _pos, start, is_group, acc =>
    if start < input.length then
      if is_group then .error .UnexpectedEnd
      else .ok (acc ++ [strSlice input start input.length])
    else .ok acc
  | ch :: rest, pos, start, true, acc =>
    if ch = '<' then .error .UnexpectedGroupOpen
    else if ch = '>' then
      if start ≠ pos + 1 then
        skAux input rest (pos + 1) (pos + 1) false
          (acc ++ [strSlice input start (pos + 1)])
      else skAux input rest (pos + 1) start false acc
    else skAux input rest (pos + 1) start true acc
  | ch :: rest, pos, start, false, acc =>
    if ch = '>' then .error .UnexpectedGroupClose
    else if ch = '<' then
      if start ≠ pos then
        skAux input rest (pos + 1) pos true
          (acc ++ [strSlice input start pos])
      else skAux input rest (pos + 1) start true acc
    else
      if start ≠ pos then
        skAux input rest (pos + 1) pos false
          (acc ++ [strSlice input start pos])
      else skAux input rest (pos + 1) start false acc

/-- `split_keys`: tokenize a notation string into bare-character tokens
and whole `<...>` group tokens. -/
def split_keys (input : List Char) : Except Error (List (List Char)) :=
  skAux input input 0 0 false []

/-- The modifier-folding loop of `parse_key_with_modifier`
(`src/lib.rs:181-187`): each sub-token must be `"C"` or `"M"`. -/
def modFold : List (List Char) → Bool → Bool → Except Error (Bool × Bool)
  | [], control, alt => .ok (control, alt)
  | m :: rest, control, alt =>
    if m = ['C'] then modFold rest true alt
    else if m = ['M'] then modFold rest control true
    else .error (.InvalidKeyModifier m)

/-- The part of `parse_key_with_modifier` after `split_modifiers`
returned the sub-token list `ms` (`src/lib.rs:165-195`): length check,
trailing-name extraction (`next_back`), name lookup, modifier fold. -/
def resolveGroup (input : List Char) (ms : List (List Char)) : PResult Key :=
  if ms.length < 2 then .err (.IncompleteGroup input)
  else
    match ms.getLast? with
    | none => .err .NoKeyName
    | some name =>
      match KeyName.from_str name with
      | none => .err (.InvalidKeyName name)
      | some (kn, shift) =>
        match modFold ms.dropLast false false with
        | .error e => .err e
        | .ok (control, alt) => .ok ⟨⟨shift, control, alt⟩, kn⟩

/-- `parse_key_with_modifier`: split the group interior and resolve it. -/
def parse_key_with_modifier (input : List Char) : PResult Key :=
  match split_modifiers input with
  | none => .panicked
  | some ms => resolveGroup input ms

/-- `parse_key_no_modifier`: look the whole token up in the key-name
table; only the implicit shift flag can be set. -/
def parse_key_no_modifier (input : List Char) : PResult Key :=
  match KeyName.from_str input with
  | none => .err (.InvalidKeyName input)
  | some (name, shift) => .ok ⟨⟨shift, false, false⟩, name⟩

/-- `parse_key` (`src/lib.rs:139-148`): a token that starts with `<`
and ends with `>` is parsed as a group with the delimiters stripped;
anything else is looked up whole. -/
def parse_key (input : List Char) : PResult Key :=
  if input.head? = some '<' ∧ input.getLast? = some '>' then
    parse_key_with_modifier (input.drop 1).dropLast
  else
    parse_key_no_modifier input

/-- The token-resolution loop of `parse_keys`. -/
def parseTokens : List (List Char) → PResult Keys
  | [] => .ok []
  | t :: ts =>
    match parse_key t with
    | .panicked => .panicked
    | .err e => .err e
    | .ok k =>
      match parseTokens ts with
      | .panicked => .panicked
      | .err e => .err e
      | .ok ks => .ok (k :: ks)

/-- `parse_keys` (`src/lib.rs:131-137`): tokenize, then resolve each
token in order, short-circuiting on the first error. -/
def parse_keys (input : List Char) : PResult Keys :=
  match split_keys input with
  | .error e => .err e
  | .ok toks => parseTokens toks

-- Sanity checks against the repository's own test suite.
example : split_keys "ab".toList = .ok [['a'], ['b']] := rfl
example : split_keys "<C-a>b".toList = .ok ["<C-a>".toList, ['b']] := rfl
example : split_keys "<C-a><C-b>".toList =
    .ok ["<C-a>".toList, "<C-b>".toList] := rfl
example : split_keys "a<C-a><".toList = .error .UnexpectedEnd := rfl
example : split_keys "C-<<a>".toList = .error .UnexpectedGroupOpen := rfl
example : split_keys "<C-a>>".toList = .error .UnexpectedGroupClose := rfl
example : split_modifiers "C-M-a".toList = some [['C'], ['M'], ['a']] := by decide
example : split_modifiers "C-\\-".toList = some [['C'], ['\\', '-']] := by decide
example : split_modifiers "--".toList = some [] := by decide
example : split_modifiers "--a".toList = some [['a']] := by decide
example : split_modifiers "C--".toList = some [['C']] := by decide
example : parse_key "A".toList = .ok ⟨⟨true, false, false⟩, .A⟩ := by decide
example : parse_key "<C-B>".toList = .ok ⟨⟨true, true, false⟩, .B⟩ := by decide
example : parse_key "<C-\\->".toList = .ok ⟨⟨false, true, false⟩, .Dash⟩ := by
  decide
example : parse_key "<C-\\>>".toList =
    .ok ⟨⟨false, true, false⟩, .GreaterThan⟩ := by decide
example : parse_keys "<M-a><C-a>B<M-C-B>".toList =
    .ok [⟨⟨false, false, true⟩, .A⟩, ⟨⟨false, true, false⟩, .A⟩,
         ⟨⟨true, false, false⟩, .B⟩, ⟨⟨true, true, true⟩, .B⟩] := by decide
example : parse_keys "<Ca>".toList = .err (.IncompleteGroup ['C', 'a']) := by
  decide

/-! ## Helper lemmas -/

/-- The modifier fold only ever fails with `InvalidKeyModifier`. -/
theorem modFold_error_invalid :
    ∀ (l : List (List Char)) (c a : Bool) (e : Error),
      modFold l c a = .error e → ∃ m, e = .InvalidKeyModifier m := by
  intro l
  induction l with
  | nil => intro c a e h; simp [modFold] at h
  | cons m rest ih =>
    intro c a e h
    by_cases hC : m = ['C']
    · exact ih true a e (by simpa [modFold, hC] using h)
    · by_cases hM : m = ['M']
      · exact ih c true e (by simpa [modFold, hC, hM] using h)
      · refine ⟨m, ?_⟩
        simp [modFold, hC, hM] at h
        exact h.symm

/-- `resolveGroup` never produces the `NoKeyName` error: the length
check precedes the trailing-name extraction, and a list of length at
least two always has a last element. -/
theorem resolveGroup_ne_noKeyName (input : List Char)
    (ms : List (List Char)) : resolveGroup input ms ≠ .err .NoKeyName := by
  unfold resolveGroup
  by_cases hlen : ms.length < 2
  · simp [hlen]
  · rcases hms : ms.getLast? with _ | name
    · exfalso
      rw [List.getLast?_eq_none_iff] at hms
      subst hms
      simp at hlen
    · simp only [hlen, if_false, hms]
      rcases hfs : KeyName.from_str name with _ | ⟨kn, shift⟩
      · simp
      · rcases hmf : modFold ms.dropLast false false with e | ⟨ctl, alt⟩
        · obtain ⟨m, hm⟩ := modFold_error_invalid _ _ _ _ hmf
          simp [hm]
        · simp


/-! ## Claim theorems -/

/-- C1: the claim states that `parse_key` and `parse_keys` always return
a value or an `Error` and never panic, in particular on `"<C-\>"`.  The
code violates this: on the group `"<C-\>"` the interior `"C-\"` ends in
an unescaped backslash, and `split_modifiers` hits its
`panic!("cannot escape end of group")` branch
(`src/lib.rs:220`), so both entry points panic on that input. -/
theorem c1_panic_on_trailing_group_escape :
    split_modifiers "C-\\".toList = none ∧
    parse_key "<C-\\>".toList = .panicked ∧
    parse_keys "<C-\\>".toList = .panicked :=
  ⟨rfl, rfl, rfl⟩

/-- C2: the claim states that an unescaped backslash in `split_keys`
escapes the next character, so that `split_keys "\<"` succeeds with the
single token `"\<"` and `parse_keys "\<"` yields the LessThan key.  The
code has no escape handling in `split_keys` at all: the backslash is
treated as an ordinary character, the following `<` opens a group, and
the scan fails with `UnexpectedEnd` (and `"\>"` fails with
`UnexpectedGroupClose`), contradicting the repository's own tests
`src/tests.rs:12-14`. -/
theorem c2_split_keys_lacks_escape_handling :
    split_keys "\\<".toList = .error .UnexpectedEnd ∧
    parse_keys "\\<".toList = .err .UnexpectedEnd ∧
    split_keys "\\>".toList = .error .UnexpectedGroupClose ∧
    split_keys "a\\<b".toList = .error .UnexpectedEnd :=
  ⟨rfl, rfl, rfl, rfl⟩

/-- C3 counterexample: the claim states that a group whose interior
yields no sub-token at all produces `Err(NoKeyName)` for some input.
On the canonical such input `"<>"` (empty interior, zero sub-tokens)
the code instead returns `IncompleteGroup("")`: the `len < 2` check
fires before the trailing-name extraction ever runs. -/
theorem c3_counterexample_empty_group :
    parse_key "<>".toList = .err (.IncompleteGroup []) ∧
    parse_key "<>".toList ≠ .err .NoKeyName :=
  ⟨rfl, by decide⟩

/-- C3 amended: `parse_key` never returns `NoKeyName` on any input; an
interior with fewer than two sub-tokens (in particular with none) is
reported as `IncompleteGroup` because the length check precedes the
trailing-name extraction, leaving the `NoKeyName` branch dead. -/
theorem c3_no_key_name_unreachable :
    ∀ input : List Char, parse_key input ≠ .err .NoKeyName := by
  intro input
  unfold parse_key
  by_cases hg : input.head? = some '<' ∧ input.getLast? = some '>'
  · rw [if_pos hg]
    unfold parse_key_with_modifier
    rcases hsm : split_modifiers (input.drop 1).dropLast with _ | ms
    · simp
    · simp only []
      exact resolveGroup_ne_noKeyName _ ms
  · rw [if_neg hg]
    unfold parse_key_no_modifier
    rcases hfs : KeyName.from_str input with _ | ⟨kn, shift⟩ <;> simp

/-- C9: `parse_keys` on the empty string succeeds with the empty key
sequence rather than an error. -/
theorem c9_empty_input_empty_keys :
    parse_keys "".toList = .ok ([] : Keys) :=
  rfl

/-- C5: whenever a token is a bracketed group (starts with `<`, ends
with `>`) and its interior splits into fewer than two sub-tokens,
`parse_key` returns `IncompleteGroup` carrying the interior text with
the delimiters stripped; in particular `parse_keys "<C>"` is
`IncompleteGroup("C")` and `parse_key "<-a>"` is
`IncompleteGroup("-a")`. -/
theorem c5_incomplete_group :
    (∀ (s : List Char) (ms : List (List Char)),
        s.head? = some '<' → s.getLast? = some '>' →
        split_modifiers (s.drop 1).dropLast = some ms →
        ms.length < 2 →
        parse_key s = .err (.IncompleteGroup (s.drop 1).dropLast))
    ∧ parse_keys "<C>".toList = .err (.IncompleteGroup ['C'])
    ∧ parse_key "<-a>".toList = .err (.IncompleteGroup ['-', 'a']) := by
  refine ⟨?_, rfl, rfl⟩
  intro s ms h1 h2 h3 h4
  unfold parse_key
  rw [if_pos ⟨h1, h2⟩]
  unfold parse_key_with_modifier
  rw [h3]
  show resolveGroup (s.drop 1).dropLast ms = _
  unfold resolveGroup
  rw [if_pos h4]

/-- C5 witness: the general part of `c5_incomplete_group` instantiated
at the group token `"<C>"`, whose interior `"C"` splits into the single
sub-token `"C"`. -/
theorem c5_incomplete_group_witness :
    parse_key "<C>".toList = .err (.IncompleteGroup ['C']) :=
  c5_incomplete_group.1 "<C>".toList [['C']] rfl rfl rfl (by decide)

/-- C10: `parse_key` dispatches to group parsing exactly when the input
both starts with `<` and ends with `>`; every other input is looked up
whole in the key-name table, so `"<"`, `">"`, `"-"` and `"C-"` each
yield `InvalidKeyName` carrying the whole input, never a
group-delimiter error and never a split on `-`. -/
theorem c10_group_dispatch :
    (∀ s : List Char, ¬(s.head? = some '<' ∧ s.getLast? = some '>') →
        parse_key s = parse_key_no_modifier s)
    ∧ (∀ s : List Char, s.head? = some '<' → s.getLast? = some '>' →
        parse_key s = parse_key_with_modifier (s.drop 1).dropLast)
    ∧ parse_key ['<'] = .err (.InvalidKeyName ['<'])
    ∧ parse_key ['>'] = .err (.InvalidKeyName ['>'])
    ∧ parse_key ['-'] = .err (.InvalidKeyName ['-'])
    ∧ parse_key "C-".toList = .err (.InvalidKeyName "C-".toList) := by
  refine ⟨?_, ?_, rfl, rfl, rfl, rfl⟩
  · intro s h
    unfold parse_key
    rw [if_neg h]
  · intro s h1 h2
    unfold parse_key
    rw [if_pos ⟨h1, h2⟩]

/-- C10 witness: the non-group branch of `c10_group_dispatch`
instantiated at the single-character input `"-"`, which neither starts
with `<` nor ends with `>`. -/
theorem c10_group_dispatch_witness :
    parse_key ['-'] = parse_key_no_modifier ['-'] :=
  c10_group_dispatch.1 ['-'] (by decide)

/-- The lowercase letters a-z. -/
def lowercase_letters : List Char :=
  ['a', 'b', 'c', 'd', 'e', 'f', 'g', 'h', 'i', 'j', 'k', 'l', 'm',
   'n', 'o', 'p', 'q', 'r', 's', 't', 'u', 'v', 'w', 'x', 'y', 'z']

/-- The uppercase letters A-Z. -/
def uppercase_letters : List Char :=
  ['A', 'B', 'C', 'D', 'E', 'F', 'G', 'H', 'I', 'J', 'K', 'L', 'M',
   'N', 'O', 'P', 'Q', 'R', 'S', 'T', 'U', 'V', 'W', 'X', 'Y', 'Z']

/-- C4: every bare letter in [a-z] ∪ [A-Z] parses successfully as a
single key; the shift flag is set exactly for the uppercase spellings,
and control and alt are always false. -/
theorem c4_bare_letters (c : Char)
    (h : c ∈ lowercase_letters ∨ c ∈ uppercase_letters) :
    ∃ k : Key, parse_key [c] = .ok k ∧
      (k.modifiers.shift = true ↔ c ∈ uppercase_letters) ∧
      k.modifiers.control = false ∧ k.modifiers.alt = false := by
  rcases h with h | h <;> fin_cases h <;>
    exact ⟨_, rfl, by decide, rfl, rfl⟩

/-- C4 witness: `c4_bare_letters` instantiated at the uppercase letter
`B`, which parses with the shift flag set. -/
theorem c4_bare_letters_witness :
    ∃ k : Key, parse_key ['B'] = .ok k ∧
      (k.modifiers.shift = true ↔ 'B' ∈ uppercase_letters) ∧
      k.modifiers.control = false ∧ k.modifiers.alt = false :=
  c4_bare_letters 'B' (Or.inr (by decide))

/-- A successful modifier fold certifies that every sub-token was `"C"`
or `"M"`. -/
theorem modFold_ok_all :
    ∀ (l : List (List Char)) (c a : Bool) (r : Bool × Bool),
      modFold l c a = .ok r → ∀ m ∈ l, m = ['C'] ∨ m = ['M'] := by
  intro l
  induction l with
  | nil => intro c a r _ m hm; cases hm
  | cons m rest ih =>
    intro c a r h x hx
    by_cases hC : m = ['C']
    · rcases List.mem_cons.mp hx with hx | hx
      · exact Or.inl (hx.trans hC)
      · exact ih true a r (by simpa [modFold, hC] using h) x hx
    · by_cases hM : m = ['M']
      · rcases List.mem_cons.mp hx with hx | hx
        · exact Or.inr (hx.trans hM)
        · exact ih c true r (by simpa [modFold, hC, hM] using h) x hx
      · simp [modFold, hC, hM] at h

/-- When every sub-token is `"C"` or `"M"`, the modifier fold succeeds
and each flag ends up set iff it started set or its letter occurs in
the list — a function of membership only, not of order. -/
theorem modFold_ok_of_all :
    ∀ (l : List (List Char)), (∀ m ∈ l, m = ['C'] ∨ m = ['M']) →
      ∀ c a : Bool,
        modFold l c a =
          .ok (c || decide (['C'] ∈ l), a || decide (['M'] ∈ l)) := by
  intro l
  induction l with
  | nil => intro _ c a; simp [modFold]
  | cons m rest ih =>
    intro hall c a
    have hrest : ∀ m ∈ rest, m = ['C'] ∨ m = ['M'] :=
      fun x hx => hall x (List.mem_cons_of_mem _ hx)
    rcases hall m (List.mem_cons_self m rest) with hC | hM
    · subst hC
      rw [show modFold (['C'] :: rest) c a = modFold rest true a from by
        simp [modFold]]
      rw [ih hrest true a]
      simp [List.mem_cons]
    · subst hM
      rw [show modFold (['M'] :: rest) c a = modFold rest c true from by
        simp [modFold]]
      rw [ih hrest c true]
      simp [List.mem_cons]

/-- A successful modifier fold is invariant under permutation of the
sub-token list. -/
theorem modFold_perm {l l' : List (List Char)} (hp : l.Perm l')
    {c a : Bool} {r : Bool × Bool} (h : modFold l c a = .ok r) :
    modFold l' c a = .ok r := by
  have hall : ∀ m ∈ l, m = ['C'] ∨ m = ['M'] := modFold_ok_all l c a r h
  have hall' : ∀ m ∈ l', m = ['C'] ∨ m = ['M'] :=
    fun x hx => hall x (hp.mem_iff.mpr hx)
  have h1 := modFold_ok_of_all l hall c a
  have h2 := modFold_ok_of_all l' hall' c a
  rw [h1] at h
  have hr : r = (c || decide (['C'] ∈ l), a || decide (['M'] ∈ l)) :=
    (Except.ok.inj h).symm
  rw [h2, hr]
  have hC : decide (['C'] ∈ l) = decide (['C'] ∈ l') :=
    decide_eq_decide.mpr hp.mem_iff
  have hM : decide (['M'] ∈ l) = decide (['M'] ∈ l') :=
    decide_eq_decide.mpr hp.mem_iff
  rw [hC, hM]

/-- C7: for a group token accepted by the key resolver, permuting the
non-trailing modifier sub-tokens leaves the resulting `Key` unchanged
(`resolveGroup` is the part of `parse_key_with_modifier` that consumes
the sub-token list); in particular `<C-M-a>` and `<M-C-a>` parse to the
same key, with control and alt set and shift clear. -/
theorem c7_modifier_order_independence :
    (∀ (input input' name : List Char) (mods mods' : List (List Char))
        (k : Key),
        mods.Perm mods' →
        resolveGroup input (mods ++ [name]) = .ok k →
        resolveGroup input' (mods' ++ [name]) = .ok k)
    ∧ parse_key "<C-M-a>".toList = .ok ⟨⟨false, true, true⟩, KeyName.A⟩
    ∧ parse_key "<M-C-a>".toList = .ok ⟨⟨false, true, true⟩, KeyName.A⟩ := by
  refine ⟨?_, rfl, rfl⟩
  intro input input' name mods mods' k hp h
  unfold resolveGroup at h ⊢
  have hlen : (mods ++ [name]).length = (mods' ++ [name]).length := by
    simp [hp.length_eq]
  by_cases h2 : (mods ++ [name]).length < 2
  · rw [if_pos h2] at h
    cases h
  · rw [if_neg h2] at h
    rw [if_neg (by rw [← hlen]; exact h2)]
    rw [List.getLast?_concat] at h ⊢
    rw [List.dropLast_concat] at h ⊢
    simp only [] at h ⊢
    rcases hfs : KeyName.from_str name with _ | ⟨kn, shift⟩
    · simp only [hfs] at h
      cases h
    · simp only [hfs] at h ⊢
      rcases hmf : modFold mods false false with e | p
      · simp only [hmf] at h
        cases h
      · simp only [hmf] at h
        simp only [modFold_perm hp hmf]
        exact h

/-- C7 witness: `c7_modifier_order_independence` applied to the
concrete permutation swapping `"C"` and `"M"` before the key name
`"a"`. -/
theorem c7_modifier_order_independence_witness :
    resolveGroup [] ([['M'], ['C']] ++ [['a']]) =
      .ok ⟨⟨false, true, true⟩, KeyName.A⟩ :=
  c7_modifier_order_independence.1 [] [] ['a'] [['C'], ['M']]
    [['M'], ['C']] ⟨⟨false, true, true⟩, KeyName.A⟩
    (List.Perm.swap ['M'] ['C'] []) rfl

/-- A string fragment containing neither `<` nor `>`. -/
def NoDelim (l : List Char) : Prop := ∀ c ∈ l, c ≠ '<' ∧ c ≠ '>'

/-- Scanning delimiter-free characters inside a group changes nothing
but the position: the characters are absorbed into the group token. -/
theorem skAux_inside (input : List Char) :
    ∀ (m rest : List Char) (pos start : Nat) (acc : List (List Char)),
      NoDelim m →
      skAux input (m ++ rest) pos start true acc =
        skAux input rest (pos + m.length) start true acc := by
  intro m
  induction m with
  | nil => intro rest pos start acc _; simp
  | cons c m ih =>
    intro rest pos start acc hm
    have hc : c ≠ '<' ∧ c ≠ '>' := hm c (List.mem_cons_self c m)
    have hm' : NoDelim m := fun x hx => hm x (List.mem_cons_of_mem _ hx)
    rw [List.cons_append]
    simp only [skAux]
    rw [if_neg hc.1, if_neg hc.2, ih rest (pos + 1) start acc hm']
    congr 1
    simp [List.length_cons]
    omega

/-- An unescaped `<` outside a group opens a group: the scanner pushes
any pending token and continues inside a group whose token starts at
the position of the `<`. -/
theorem skAux_open (input : List Char) (tail : List Char)
    (pos start : Nat) (acc : List (List Char)) :
    ∃ acc2, skAux input ('<' :: tail) pos start false acc =
      skAux input tail (pos + 1) pos true acc2 := by
  simp only [skAux]
  rw [if_neg (by decide : ¬('<' : Char) = '>'), if_pos (by trivial)]
  by_cases hsp : start ≠ pos
  · exact ⟨acc ++ [strSlice input start pos], by rw [if_pos hsp]⟩
  · push_neg at hsp
    subst hsp
    exact ⟨acc, by simp⟩

/-- The strings the tokenizer consumes without error while ending up
outside a group: any interleaving of non-delimiter characters and
completed `<...>` groups whose interiors are delimiter-free. -/
inductive BalancedPrefix : List Char → Prop where
  | nil : BalancedPrefix []
  | chr : ∀ (c : Char) (p : List Char), c ≠ '<' → c ≠ '>' →
      BalancedPrefix p → BalancedPrefix (c :: p)
  | grp : ∀ (g p : List Char), NoDelim g →
      BalancedPrefix p → BalancedPrefix ('<' :: g ++ '>' :: p)

/-- Scanning a balanced prefix — non-delimiter characters and completed
groups in any order — from outside a group leaves the scanner outside a
group, only advancing the position and pushing completed tokens. -/
theorem skAux_balanced (input : List Char) (p : List Char)
    (hbp : BalancedPrefix p) :
    ∀ (rest : List Char) (pos start : Nat) (acc : List (List Char)),
      ∃ start2 acc2,
        skAux input (p ++ rest) pos start false acc =
          skAux input rest (pos + p.length) start2 false acc2 := by
  induction hbp with
  | nil => intro rest pos start acc; exact ⟨start, acc, by simp⟩
  | chr c p hc1 hc2 hp ih =>
    intro rest pos start acc
    by_cases hsp : start ≠ pos
    · obtain ⟨s2, a2, h2⟩ :=
        ih rest (pos + 1) pos (acc ++ [strSlice input start pos])
      refine ⟨s2, a2, ?_⟩
      rw [List.cons_append]
      simp only [skAux]
      rw [if_neg hc2, if_neg hc1, if_pos hsp, h2]
      congr 1
      simp [List.length_cons]
      omega
    · obtain ⟨s2, a2, h2⟩ := ih rest (pos + 1) start acc
      refine ⟨s2, a2, ?_⟩
      rw [List.cons_append]
      simp only [skAux]
      rw [if_neg hc2, if_neg hc1, if_neg hsp, h2]
      congr 1
      simp [List.length_cons]
      omega
  | grp g p hg hp ih =>
    intro rest pos start acc
    obtain ⟨a3, h1⟩ := skAux_open input (g ++ '>' :: (p ++ rest)) pos start acc
    obtain ⟨s2, a2, h2⟩ := ih rest (pos + 1 + g.length + 1)
      (pos + 1 + g.length + 1)
      (a3 ++ [strSlice input pos (pos + 1 + g.length + 1)])
    refine ⟨s2, a2, ?_⟩
    have hshape : ('<' :: g ++ '>' :: p) ++ rest =
        '<' :: (g ++ '>' :: (p ++ rest)) := by
      simp
    rw [hshape, h1,
      skAux_inside input g ('>' :: (p ++ rest)) (pos + 1) pos a3 hg]
    simp only [skAux]
    rw [if_neg (by decide : ¬('>' : Char) = '<'), if_pos (by trivial),
      if_pos (show pos ≠ pos + 1 + g.length + 1 from by omega), h2]
    congr 1
    simp [List.length_append, List.length_cons]
    omega

/-- C6: the tokenizer rejects a `<` while a group is already open with
`UnexpectedGroupOpen`, a `>` outside any group with
`UnexpectedGroupClose`, and end of input with a group still open with
`UnexpectedEnd`, after any balanced prefix (non-delimiter characters
and completed groups in any order); `parse_keys` propagates all
three. -/
theorem c6_tokenizer_delimiter_errors :
    (∀ p r : List Char, BalancedPrefix p →
        split_keys (p ++ '>' :: r) = .error .UnexpectedGroupClose)
    ∧ (∀ p m r : List Char, BalancedPrefix p → NoDelim m →
        split_keys (p ++ '<' :: (m ++ '<' :: r)) =
          .error .UnexpectedGroupOpen)
    ∧ (∀ p m : List Char, BalancedPrefix p → NoDelim m →
        split_keys (p ++ '<' :: m) = .error .UnexpectedEnd)
    ∧ parse_keys "<C-<a>".toList = .err .UnexpectedGroupOpen
    ∧ parse_keys "a>".toList = .err .UnexpectedGroupClose
    ∧ parse_keys "<C-".toList = .err .UnexpectedEnd
    ∧ split_keys "<C-a>>".toList = .error .UnexpectedGroupClose
    ∧ split_keys "a<C-a><".toList = .error .UnexpectedEnd := by
  refine ⟨?_, ?_, ?_, rfl, rfl, rfl, rfl, rfl⟩
  · intro p r hp
    unfold split_keys
    obtain ⟨s2, a2, heq⟩ := skAux_balanced _ p hp ('>' :: r) 0 0 []
    rw [heq]
    simp [skAux]
  · intro p m r hp hm
    unfold split_keys
    obtain ⟨s2, a2, heq⟩ :=
      skAux_balanced _ p hp ('<' :: (m ++ '<' :: r)) 0 0 []
    rw [heq]
    obtain ⟨a3, heq2⟩ := skAux_open _ (m ++ '<' :: r) (0 + p.length) s2 a2
    rw [heq2]
    rw [skAux_inside _ m ('<' :: r) (0 + p.length + 1) (0 + p.length) a3 hm]
    simp [skAux]
  · intro p m hp hm
    unfold split_keys
    obtain ⟨s2, a2, heq⟩ := skAux_balanced _ p hp ('<' :: m) 0 0 []
    rw [heq]
    obtain ⟨a3, heq2⟩ := skAux_open _ m (0 + p.length) s2 a2
    rw [heq2]
    have h3 := skAux_inside (p ++ '<' :: m) m [] (0 + p.length + 1)
      (0 + p.length) a3 hm
    rw [List.append_nil] at h3
    rw [h3]
    have hlen : 0 + p.length < (p ++ '<' :: m).length := by
      simp
    simp [skAux, hlen]

/-- C6 witness: the `UnexpectedGroupClose` part of
`c6_tokenizer_delimiter_errors` instantiated at the input `"<C-a>>"`
(a balanced prefix consisting of one completed group, then a `>`
outside any group). -/
theorem c6_tokenizer_delimiter_errors_witness :
    split_keys ("<C-a>".toList ++ '>' :: []) = .error .UnexpectedGroupClose :=
  c6_tokenizer_delimiter_errors.1 "<C-a>".toList []
    (by
      show BalancedPrefix ('<' :: ['C', '-', 'a'] ++ '>' :: [])
      exact BalancedPrefix.grp ['C', '-', 'a'] []
        (by unfold NoDelim; decide) BalancedPrefix.nil)

/-- An empty slice. -/
theorem strSlice_self (l : List Char) (a : Nat) : strSlice l a a = [] := by
  simp [strSlice]

/-- Extending a slice by the character found at its right boundary. -/
theorem strSlice_extend (input : List Char) (pos : Nat) (c : Char)
    (rest : List Char) (h : input.drop pos = c :: rest) (start : Nat)
    (hs : start ≤ pos) :
    strSlice input start (pos + 1) = strSlice input start pos ++ [c] := by
  unfold strSlice
  have h1 : pos + 1 - start = (pos - start) + 1 := by omega
  rw [h1, List.take_succ]
  congr 1
  rw [List.getElem?_drop]
  have h2 : start + (pos - start) = pos := by omega
  rw [h2]
  have h3 : input[pos]? = some c := by
    have h4 := List.getElem?_drop input pos 0
    rw [h] at h4
    simpa using h4.symm
  rw [h3]
  rfl

/-- A slice whose right boundary lies at or beyond the end of the list
is the whole remaining suffix. -/
theorem strSlice_drop_tail (input : List Char) (pos : Nat)
    (h : input.length ≤ pos) (start : Nat) :
    strSlice input start pos = input.drop start := by
  unfold strSlice
  apply List.take_of_length_le
  simp [List.length_drop]
  omega

/-- A slice with boundaries inside the list has the expected length. -/
theorem strSlice_length (input : List Char) (start pos : Nat)
    (_h1 : start ≤ pos) (h2 : pos ≤ input.length) :
    (strSlice input start pos).length = pos - start := by
  simp [strSlice, List.length_take, List.length_drop]
  omega

/-- A slice with strictly increasing in-range boundaries is non-empty. -/
theorem strSlice_ne_nil (input : List Char) (start pos : Nat)
    (h1 : start < pos) (h2 : pos ≤ input.length) :
    strSlice input start pos ≠ [] := by
  intro hnil
  have h3 := strSlice_length input start pos (le_of_lt h1) h2
  rw [hnil] at h3
  simp at h3
  omega

/-- Specification-side description of the Modifier Splitter, written
from §4.2 of the spec rather than from the code, for comparison with
`split_modifiers`: scan left to right carrying an "inside escape" flag
and the current sub-token; a backslash not itself escaped sets the flag
for exactly the next character; an unescaped `-` is a split point whose
current sub-token is emitted only if non-empty; the final sub-token is
emitted only if non-empty. -/
def smSpecAux : List Char → Bool → List Char → List (List Char)
  | [], _esc, cur => if cur = [] then [] else [cur]
  | c :: rest, true, cur => smSpecAux rest false (cur ++ [c])
  | c :: rest, false, cur =>
    if c = '\\' then smSpecAux rest true (cur ++ [c])
    else if c = '-' then
      if cur = [] then smSpecAux rest false []
      else cur :: smSpecAux rest false []
    else smSpecAux rest false (cur ++ [c])

/-- Specification-side Modifier Splitter on a whole interior string. -/
def split_modifiers_spec (input : List Char) : List (List Char) :=
  smSpecAux input false []

/-- The index-based splitting loop of the code agrees, whenever it
returns at all, with the specification-side accumulating scan: the
slice from the last split point corresponds to the current sub-token. -/
theorem smAux_eq_spec (input : List Char) :
    ∀ (rem : List Char) (pos start : Nat) (esc : Bool)
      (acc l : List (List Char)),
      input.drop pos = rem → start ≤ pos →
      smAux input rem pos start esc acc = some l →
      l = acc ++ smSpecAux rem esc (strSlice input start pos) := by
  intro rem
  induction rem with
  | nil =>
    intro pos start esc acc l hdrop hsp h
    have hlen : input.length ≤ pos := List.drop_eq_nil_iff.mp hdrop
    simp only [smAux] at h
    by_cases hs : start < input.length
    · rw [if_pos hs] at h
      cases esc with
      | true =>
        rw [if_pos rfl] at h
        cases h
      | false =>
        rw [if_neg (by decide : ¬(false = true))] at h
        have hl := Option.some.inj h
        have hcur : strSlice input start pos = input.drop start :=
          strSlice_drop_tail input pos hlen start
        have hcur2 : strSlice input start input.length = input.drop start :=
          strSlice_drop_tail input input.length le_rfl start
        have hne : input.drop start ≠ [] := fun hnil => by
          have h9 := List.drop_eq_nil_iff.mp hnil
          omega
        simp only [smSpecAux]
        rw [hcur, if_neg hne, ← hl, hcur2]
    · rw [if_neg hs] at h
      have hl := Option.some.inj h
      push_neg at hs
      have hcur : strSlice input start pos = input.drop start :=
        strSlice_drop_tail input pos hlen start
      have hnil : input.drop start = [] := List.drop_eq_nil_iff.mpr hs
      simp only [smSpecAux]
      rw [hcur, hnil, if_pos rfl, ← hl]
      simp
  | cons c rest ih =>
    intro pos start esc acc l hdrop hsp h
    have hlt : pos < input.length := by
      by_contra hge
      push_neg at hge
      rw [List.drop_eq_nil_iff.mpr hge] at hdrop
      cases hdrop
    have hdrop' : input.drop (pos + 1) = rest := by
      rw [← List.tail_drop, hdrop]
      rfl
    cases esc with
    | true =>
      simp only [smAux] at h
      have hrec := ih (pos + 1) start false acc l hdrop'
        (Nat.le_succ_of_le hsp) h
      rw [hrec, strSlice_extend input pos c rest hdrop start hsp]
      simp only [smSpecAux]
    | false =>
      simp only [smAux] at h
      by_cases hbs : c = '\\'
      · rw [if_pos hbs] at h
        have hrec := ih (pos + 1) start true acc l hdrop'
          (Nat.le_succ_of_le hsp) h
        rw [hrec, strSlice_extend input pos c rest hdrop start hsp]
        simp only [smSpecAux]
        rw [if_pos hbs]
      · by_cases hds : c = '-'
        · rw [if_neg hbs, if_pos hds] at h
          by_cases hsp2 : start ≠ pos
          · rw [if_pos hsp2] at h
            have hrec := ih (pos + 1) (pos + 1) false
              (acc ++ [strSlice input start pos]) l hdrop' le_rfl h
            rw [hrec]
            simp only [smSpecAux]
            rw [if_neg hbs, if_pos hds]
            have hne : strSlice input start pos ≠ [] :=
              strSlice_ne_nil input start pos
                (lt_of_le_of_ne hsp hsp2) (le_of_lt hlt)
            rw [if_neg hne, strSlice_self]
            simp
          · push_neg at hsp2
            rw [if_neg (by simp [hsp2])] at h
            have hrec := ih (pos + 1) (pos + 1) false acc l hdrop' le_rfl h
            rw [hrec]
            simp only [smSpecAux]
            rw [if_neg hbs, if_pos hds]
            subst hsp2
            rw [strSlice_self, strSlice_self, if_pos rfl]
        · rw [if_neg hbs, if_neg hds] at h
          have hrec := ih (pos + 1) start false acc l hdrop'
            (Nat.le_succ_of_le hsp) h
          rw [hrec, strSlice_extend input pos c rest hdrop start hsp]
          simp only [smSpecAux]
          rw [if_neg hbs, if_neg hds]

/-- The specification-side scan never emits an empty sub-token. -/
theorem smSpecAux_no_nil :
    ∀ (rem : List Char) (esc : Bool) (cur : List Char),
      [] ∉ smSpecAux rem esc cur := by
  intro rem
  induction rem with
  | nil =>
    intro esc cur
    simp only [smSpecAux]
    by_cases hc : cur = []
    · rw [if_pos hc]
      simp
    · rw [if_neg hc]
      simp [eq_comm, hc]
  | cons c rest ih =>
    intro esc cur
    cases esc with
    | true =>
      simp only [smSpecAux]
      exact ih false (cur ++ [c])
    | false =>
      simp only [smSpecAux]
      by_cases hbs : c = '\\'
      · rw [if_pos hbs]
        exact ih true (cur ++ [c])
      · rw [if_neg hbs]
        by_cases hds : c = '-'
        · rw [if_pos hds]
          by_cases hc : cur = []
          · rw [if_pos hc]
            exact ih false []
          · rw [if_neg hc]
            intro hmem
            rcases List.mem_cons.mp hmem with hh | hh
            · exact hc hh.symm
            · exact ih false [] hh
        · rw [if_neg hds]
          exact ih false (cur ++ [c])

/-- C8: whenever `split_modifiers` returns a sub-token list, that list
is exactly the left-to-right sequence of non-empty segments delimited
by unescaped `-` characters described by the spec (an escaped `-` is
never a split point, consecutive or boundary separators produce no
entry), and the empty string never occurs among the sub-tokens. -/
theorem c8_split_modifiers_matches_spec :
    ∀ (s : List Char) (l : List (List Char)),
      split_modifiers s = some l →
      l = split_modifiers_spec s ∧ [] ∉ l := by
  intro s l h
  unfold split_modifiers at h
  have h1 := smAux_eq_spec s s 0 0 false [] l (by simp) le_rfl h
  rw [strSlice_self, List.nil_append] at h1
  refine ⟨h1, ?_⟩
  rw [h1]
  exact smSpecAux_no_nil s false []

/-- C8 witness: `c8_split_modifiers_matches_spec` instantiated at the
interior `"C-a"`, whose computed sub-tokens are `["C", "a"]`. -/
theorem c8_split_modifiers_matches_spec_witness :
    ([['C'], ['a']] : List (List Char)) =
        split_modifiers_spec "C-a".toList ∧
      ([] : List Char) ∉ ([[('C' : Char)], ['a']] : List (List Char)) :=
  c8_split_modifiers_matches_spec "C-a".toList [['C'], ['a']] rfl

/-- C8 counterexample: the claim quantifies over every group-interior
string, but on `"C-\"` (ending in an unescaped backslash)
`split_modifiers` does not return the described segments `["C", "\"]`
— it panics, returning nothing at all. -/
theorem c8_counterexample_trailing_escape :
    split_modifiers "C-\\".toList = none ∧
    split_modifiers_spec "C-\\".toList = [['C'], ['\\']] :=
  ⟨rfl, rfl⟩

/-- C3 witness: `c3_no_key_name_unreachable` instantiated at the
ordinary input `"a"`. -/
theorem c3_no_key_name_unreachable_witness :
    parse_key ['a'] ≠ .err .NoKeyName :=
  c3_no_key_name_unreachable ['a']
